import Mathlib

/-!
Verification development for the trace-analyst repository.

The definitions in this file are a shallow embedding of the trace sampling and
two-stage AI orchestration pipeline found in `server/services/openai.ts` and the
`/api/analyze` route of the server routes module.  Pure functions of the
TypeScript source become Lean functions; JavaScript strings are modelled either
as `String` atoms (for whole trace lines) or as `List Char` (for prompt-template
character manipulation); JS numbers used as array indices and LCG states are
modelled as `Nat` with explicit `% m`; fallible model calls are modelled by an
outcome datatype whose constructors cover each catch branch of the source.
-/

namespace TraceAnalyst

/-- A trace line paired with its 1-based position in the uploaded corpus, as built
by `traces.map((trace, index) => ({ trace, originalIndex: index + 1 }))` in
`analyzeDatasetGapsStreaming`. -/
structure IndexedTrace where
  trace : String
  originalIndex : Nat
deriving DecidableEq, Repr

/-- One step of the seeded random generator of `shuffleArray`:
`rng = (rng * 9301 + 49297) % 233280`. -/
def lcgNext (rng : Nat) : Nat := (rng * 9301 + 49297) % 233280

/-- Swap the elements at positions `i` and `j` of a list, as performed by the
destructuring assignment `[a[i], a[j]] = [a[j], a[i]]`.  Out-of-range positions
leave the list unchanged (the source's loop only produces in-range positions). -/
def listSwap (l : List α) (i j : Nat) : List α :=
  match l[i]?, l[j]? with
  | some x, some y => (l.set i y).set j x
  | _, _ => l

/-- The backward Fisher-Yates loop of `shuffleArray`: the argument counts the
current value of the loop variable `i`, which runs from `length - 1` down to `1`.
At each step `j = Math.floor(seededRandom() * (i + 1))`; since the LCG state is
below `233280` and the products involved are far below `2^53`, the JS
floating-point `floor` coincides with exact natural division, which is how it is
modelled here. -/
def shuffleAux (l : List α) (rng : Nat) : Nat → List α
  | 0 => l
  | c + 1 =>
    let st := lcgNext rng
    let j := st * (c + 2) / 233280
    shuffleAux (listSwap l (c + 1) j) st c

/-- The function `shuffleArray(array, seed)` from `server/services/openai.ts` (seeded branch):
copies the array and runs the backward Fisher-Yates loop with the LCG. -/
def shuffleArray (l : List α) (seed : Nat) : List α :=
  shuffleAux l seed (l.length - 1)

/-- A map with the element's index, starting the 1-based numbering at `k + 1`:
the recursive rendering of `traces.map((trace, index) => ({ trace, originalIndex: index + 1 }))`. -/
def withIndexesFrom (k : Nat) : List String → List IndexedTrace
  | [] => []
  | t :: rest => ⟨t, k + 1⟩ :: withIndexesFrom (k + 1) rest

/-- The `tracesWithIndexes` value of `analyzeDatasetGapsStreaming`: each trace paired with
its 1-based position in the input list. -/
def tracesWithIndexes (traces : List String) : List IndexedTrace :=
  withIndexesFrom 0 traces

/-- The seed `contentSeed = traces.join('').length % 100000` from
`analyzeDatasetGapsStreaming`. -/
def contentSeed (traces : List String) : Nat :=
  (String.join traces).length % 100000

/-- The trace corpus extraction
`langsmithContent.split("\n").filter((line) => line.trim() !== "")`. -/
def splitTraces (langsmithContent : String) : List String :=
  (langsmithContent.splitOn "\n").filter (fun line => line.trim != "")

/-- The sampler of `analyzeDatasetGapsStreaming` (lines 59-67): index the traces,
shuffle with the deterministic content seed, and keep the first
`Math.min(maxTracesForAnalysis, traces.length)` elements. -/
def selectedTraces (traces : List String) (maxTracesForAnalysis : Nat) : List IndexedTrace :=
  (shuffleArray (tracesWithIndexes traces) (contentSeed traces)).take
    (min maxTracesForAnalysis traces.length)

/-- Modelled from the spec: one step of the reference Fisher-Yates loop as worded
in the claim — update `state = (state * 9301 + 49297) mod 233280`, draw
`state / 233280`, and swap position `i` with `floor(draw * (i + 1))`. -/
def refShuffleStep (acc : List IndexedTrace × Nat) (i : Nat) : List IndexedTrace × Nat :=
  let st := (acc.2 * 9301 + 49297) % 233280
  (listSwap acc.1 i (st * (i + 1) / 233280), st)

/-- Modelled from the spec: the reference backward Fisher-Yates shuffle, phrased
as a fold over the loop indices `length - 1, ..., 1` in descending order. -/
def refShuffle (l : List IndexedTrace) (seed : Nat) : List IndexedTrace :=
  ((List.range' 1 (l.length - 1)).reverse.foldl refShuffleStep (l, seed)).1

/-- Modelled from the spec: the reference sampler of claim C1 — pair each trace
with its 1-based input position, seed the LCG with the sum of the character
lengths of all trace texts modulo 100000, shuffle, and take the first
`min(maxCount, len(traces))` elements. -/
def referenceSample (traces : List String) (maxCount : Nat) : List IndexedTrace :=
  let paired := (traces.zip (List.range' 1 traces.length)).map (fun p => ⟨p.1, p.2⟩)
  let seed := (traces.map String.length).sum % 100000
  (refShuffle paired seed).take (min maxCount traces.length)

/-- The fallback sampling path of `selectRelevantTraces` (lines 198-212): split,
keep the first 250 trace lines, index them 1-based, and shuffle with the
deterministic seed computed over the limited list.  No truncation follows the
shuffle on this path. -/
def fallbackTracesForReasoning (allTraces : List String) : List IndexedTrace :=
  let limitedTraces := allTraces.take 250
  shuffleArray (tracesWithIndexes limitedTraces) (contentSeed limitedTraces)

/-- Step 1 of `selectRelevantTraces`: use the pre-selected traces when a
non-empty list is supplied (`preSelectedTraces && preSelectedTraces.length > 0`),
otherwise recompute a sample from the corpus via the fallback path. -/
def tracesForReasoningPrep (langsmithContent : String)
    (preSelectedTraces : Option (List IndexedTrace)) : List IndexedTrace :=
  match preSelectedTraces with
  | some l => if l.length > 0 then l else fallbackTracesForReasoning (splitTraces langsmithContent)
  | none => fallbackTracesForReasoning (splitTraces langsmithContent)

/-- One item of the structured `select_and_tag_traces` payload returned by the
reasoning model: a line number and an optional tag list (`item.tags` may be
absent, in which case `item.tags || []` applies). -/
structure SelectedItem where
  line_number : Nat
  tags : Option (List String)
deriving DecidableEq, Repr

/-- The Reasoning Caller's output unit: `{ trace: ..., tags: ... }`. -/
structure TaggedTrace where
  trace : String
  tags : List String
deriving DecidableEq, Repr

/-- The per-item mapping of `selectRelevantTraces` (lines 324-333): look the
returned line number up among the sample's `originalIndex` values with `find`,
fall back to the empty string when no sample element matches, and default the
tags to `[]`. -/
def mapSelectedItem (tracesForReasoning : List IndexedTrace) (item : SelectedItem) : TaggedTrace :=
  let matchingTrace := tracesForReasoning.find? (fun t => t.originalIndex == item.line_number)
  { trace := match matchingTrace with
      | some t => t.trace
      | none => ""
    tags := item.tags.getD [] }

/-- The possible outcomes of the reasoning model call and of the parsing of its
structured payload, one constructor per branch of `selectRelevantTraces`:
the pre-call abort check, the outer catch (model-call failure), the missing
`function_call` branch, the `JSON.parse` catch, and a successful parse whose
`selected_traces` field may be absent. -/
inductive ReasoningOutcome where
  | abortedBeforeCall
  | callFailure
  | noFunctionCall
  | parseFailure
  | parsed (selected : Option (List SelectedItem))
deriving DecidableEq, Repr

/-- The result computation of `selectRelevantTraces` (lines 289-370): every
failure branch leaves `tracesWithTags` at its initial `[]`; only a parsed
payload with a non-empty `selected_traces` array is mapped.  The outer
`try/catch` means the function returns a list on every path — exceptions never
propagate — which this total function embeds. -/
def processReasoningResponse (tracesForReasoning : List IndexedTrace) :
    ReasoningOutcome → List TaggedTrace
  | .parsed (some items) =>
    if items.length > 0 then items.map (mapSelectedItem tracesForReasoning) else []
  | _ => []

/-- Literal first-occurrence substring substitution: the semantics of the
JavaScript `String.prototype.replace(searchString, replacement)` calls used to
render both prompt templates.  Only the first occurrence of the pattern is
replaced; a string without the pattern is returned unchanged. -/
def replaceFirst (pat repl : List Char) : List Char → List Char
  | [] => if pat.isEmpty then repl else []
  | c :: rest =>
    if pat.isPrefixOf (c :: rest) then repl ++ (c :: rest).drop pat.length
    else c :: replaceFirst pat repl rest

/-- Whether `pat` occurs as a contiguous substring. -/
def occursIn (pat : List Char) : List Char → Bool
  | [] => pat.isEmpty
  | c :: rest => pat.isPrefixOf (c :: rest) || occursIn pat rest

/-- Fuelled scanner for `replaceAll`: the fuel bounds the number of scanning
steps, and one character of the input is consumed per step at minimum, so fuel
equal to the input length always suffices. -/
def replaceAllAux (pat repl : List Char) : Nat → List Char → List Char
  | 0, s => s
  | _ + 1, [] => []
  | fuel + 1, c :: rest =>
    if pat.isPrefixOf (c :: rest) && !pat.isEmpty then
      repl ++ replaceAllAux pat repl fuel (rest.drop (pat.length - 1))
    else c :: replaceAllAux pat repl fuel rest

/-- Modelled from the spec: substitution of every occurrence of the pattern, as
the words of claim C4 describe the Prompt Assembler ("each placeholder
occurrence").  After a match, scanning resumes after the replaced occurrence. -/
def replaceAll (pat repl s : List Char) : List Char :=
  replaceAllAux pat repl s.length s

/-- The characters `{name}` of a template placeholder. -/
def placeholderOf (name : List Char) : List Char :=
  Char.ofNat 123 :: (name ++ [Char.ofNat 125])

/-- The Prompt Assembler: successive first-occurrence substitutions, one per
binding, exactly as the chained `.replace('{conversation}', ...)` calls of the
source perform them. -/
def renderPrompt (template : List Char) (bindings : List (List Char × List Char)) : List Char :=
  bindings.foldl (fun acc b => replaceFirst (placeholderOf b.1) b.2 acc) template

/-- Modelled from the spec: the Prompt Assembler as claim C4 words it, replacing
every occurrence of each placeholder. -/
def renderPromptAllOccurrences (template : List Char)
    (bindings : List (List Char × List Char)) : List Char :=
  bindings.foldl (fun acc b => replaceAll (placeholderOf b.1) b.2 acc) template

/-- One chat-history message, `{ type: 'user' | 'assistant', content }`
(`isUser` true for `'user'`); the id and timestamp fields play no role in the
prompt rendering. -/
structure ChatMessage where
  isUser : Bool
  content : List Char
deriving DecidableEq, Repr

/-- A chat message rendered as `"User: <text>"` or `"AI: <text>"`. -/
def formatMsg (m : ChatMessage) : List Char :=
  (if m.isUser then "User: ".data else "AI: ".data) ++ m.content

/-- The conversation context of `selectRelevantTraces` (lines 260-263): prior
turns joined by blank lines with the current question and the analysis answer
appended, or just the question and answer when the history is empty. -/
def conversationContextReasoning (chatHistory : List ChatMessage)
    (userQuery aiResponse : List Char) : List Char :=
  if chatHistory.length > 0 then
    List.intercalate "\n\n".data (chatHistory.map formatMsg) ++
      "\n\nUser: ".data ++ userQuery ++ "\n\nAI: ".data ++ aiResponse
  else "User: ".data ++ userQuery ++ "\n\nAI: ".data ++ aiResponse

/-- The conversation context of `analyzeDatasetGapsStreaming` (lines 123-125):
prior turns joined by blank lines with the current question appended. -/
def conversationContextAnalysis (chatHistory : List ChatMessage)
    (userQuery : List Char) : List Char :=
  if chatHistory.length > 0 then
    List.intercalate "\n\n".data (chatHistory.map formatMsg) ++ "\n\nUser: ".data ++ userQuery
  else "User: ".data ++ userQuery

/-- The conversation truncation of `selectRelevantTraces` (lines 259-268):
`conversationContext.slice(-2000)` when the context exceeds 2000 characters,
keeping the tail. -/
def truncateConversation (conv : List Char) : List Char :=
  if conv.length > 2000 then conv.drop (conv.length - 2000) else conv

/-- The per-trace truncation of `selectRelevantTraces` (lines 271-273): traces
longer than 200 characters are cut to their first 200 characters followed by an
ellipsis marker. -/
def truncateTrace (t : List Char) : List Char :=
  if t.length > 200 then t.take 200 ++ "...".data else t

/-- One line of the optimized traces section: `originalIndex: truncatedTrace`. -/
def optimizedTraceLine (it : IndexedTrace) : List Char :=
  (Nat.repr it.originalIndex).data ++ ": ".data ++ truncateTrace it.trace.data

/-- The `optimizedTraces` section of `selectRelevantTraces` (lines 272-275). -/
def optimizedTraces (tracesForReasoning : List IndexedTrace) : List Char :=
  List.intercalate "\n".data (tracesForReasoning.map optimizedTraceLine)

/-- The reasoning prompt render of `selectRelevantTraces` (lines 277-279):
truncated conversation and optimized traces substituted into the template. -/
def buildReasoningPrompt (template conversationContext : List Char)
    (tracesForReasoning : List IndexedTrace) : List Char :=
  renderPrompt template
    [("conversation".data, truncateConversation conversationContext),
     ("traces".data, optimizedTraces tracesForReasoning)]

/-- The analysis prompt render of `analyzeDatasetGapsStreaming` (lines 128-131):
conversation, traces section and datasets section substituted verbatim — no
truncation on this path. -/
def buildAnalysisPrompt (template conversationContext tracesSection datasetsSection :
    List Char) : List Char :=
  renderPrompt template
    [("conversation".data, conversationContext),
     ("traces".data, tracesSection),
     ("datasets".data, datasetsSection)]

/-- One item of the `analyze_traces_for_batch_job` payload returned by the batch
model: possibly-missing line number (an arbitrary integer, models can return
anything), relevance score and reasoning string.  Scores are modelled as exact
rationals: the clamp and the comparison-based sort below involve no rounding,
and a JS `NaN` score is falsy and hence already sent to `0` by the source's
`item.relevance_score || 0` before any arithmetic happens. -/
structure BatchItem where
  line_number : Option Int
  relevance_score : Option ℚ
  reasoning : Option String
deriving DecidableEq, Repr

/-- The Batch Ranking Caller's output unit
`{ trace, originalIndex, relevanceScore, reasoning }`; `originalIndex` is the
zero-based `item.line_number - 1` of the source. -/
structure BatchResult where
  trace : String
  originalIndex : Int
  relevanceScore : ℚ
  reasoning : String
deriving DecidableEq, Repr

/-- The larger of two rationals, as `Math.max` picks it. -/
def jsMax (a b : ℚ) : ℚ := if a ≤ b then b else a

/-- The smaller of two rationals, as `Math.min` picks it. -/
def jsMin (a b : ℚ) : ℚ := if a ≤ b then a else b

/-- The clamp `Math.min(1, Math.max(0, x))` of the batch score. -/
def clamp01 (q : ℚ) : ℚ := jsMin 1 (jsMax 0 q)

/-- The default `item.reasoning || "No reasoning provided"`: in JavaScript the empty string
is falsy, so both a missing field and an empty string yield the default. -/
def jsOrString (s : Option String) (dflt : String) : String :=
  match s with
  | some v => if v = "" then dflt else v
  | none => dflt

/-- The filter of `runBatchJobAnalysis` (line 456):
`item.line_number && item.line_number >= 1 && item.line_number <= traces.length`
(a missing or zero line number is falsy and filtered out). -/
def batchItemInRange (tracesLength : Nat) (item : BatchItem) : Bool :=
  match item.line_number with
  | some n => decide (1 ≤ n) && decide (n ≤ (tracesLength : Int))
  | none => false

/-- The per-item mapping of `runBatchJobAnalysis` (lines 457-462). -/
def mkBatchResult (traces : List String) (item : BatchItem) : BatchResult :=
  let n := (item.line_number.getD 0)
  { trace := traces.getD (n - 1).toNat ""
    originalIndex := n - 1
    relevanceScore := clamp01 (item.relevance_score.getD 0)
    reasoning := jsOrString item.reasoning "No reasoning provided" }

/-- Insert into a list kept in descending score order, after any equal scores:
one step of the stable sort performed by
`.sort((a, b) => b.relevanceScore - a.relevanceScore)`. -/
def insertDesc (x : BatchResult) : List BatchResult → List BatchResult
  | [] => [x]
  | y :: ys =>
    if x.relevanceScore ≤ y.relevanceScore then y :: insertDesc x ys else x :: y :: ys

/-- Stable descending sort by relevance score, the semantics of the JS
`Array.prototype.sort` call with comparator `b.relevanceScore - a.relevanceScore`. -/
def sortByScoreDesc : List BatchResult → List BatchResult
  | [] => []
  | x :: xs => insertDesc x (sortByScoreDesc xs)

/-- The response processing of `runBatchJobAnalysis` (lines 450-468): a missing
function call, a parse failure or a missing `matching_traces` array leaves
`results` at `[]`; otherwise the items are range-filtered, mapped, and sorted
descending by clamped score. -/
def processBatchResponse (traces : List String) (matchingTraces : Option (List BatchItem)) :
    List BatchResult :=
  match matchingTraces with
  | none => []
  | some items =>
    sortByScoreDesc ((items.filter (batchItemInRange traces.length)).map (mkBatchResult traces))

/-- The server-sent events written by the `/api/analyze` route, in source order:
the initial heartbeat, `content` fragments from the analysis word stream, the
stage markers, the terminal payload, and the catch-branch error event. -/
inductive Event where
  | heartbeat
  | content (s : String)
  | streamingComplete
  | reasoningStart
  | complete (tracesWithTags : List TaggedTrace)
  | errorEv (message : String)
deriving DecidableEq, Repr

/-- The handler of the `/api/analyze` route of the server routes module (lines 241-320),
embedded as the sequence of events its handler writes to the response stream.
`words` is the analysis answer split on spaces; `disconnectAt = some d` is the
schedule on which the client disconnect fires after `d` content fragments have
been emitted (and hence the shared `clientDisconnected` flag is set from that
point on, in particular before the pre-reasoning guard); `none` means the client
never disconnects.  `analysisThrows` covers the case where
`analyzeDatasetGapsStreaming` rejects — including the abort-induced rejection of
the provider call — which lands in the route's catch branch.  The word loop of
`analyzeDatasetGapsStreaming` stops emitting once the abort signal fires, and
the `onChunk` writer independently checks the flag, so exactly the first
`min d words.length` fragments are written. -/
def endpointEvents (words : List String) (disconnectAt : Option Nat)
    (analysisThrows : Bool) (reasoningTags : List TaggedTrace) : List Event :=
  Event.heartbeat ::
    (if analysisThrows then [Event.errorEv "Analysis failed"]
     else
       (match disconnectAt with
        | none => words
        | some d => words.take d).map Event.content ++
       [Event.streamingComplete, Event.reasoningStart,
        Event.complete (if disconnectAt.isSome then [] else reasoningTags)])

/-- Descending order by relevance score, the order asserted by the batch claim. -/
def scoreGE (a b : BatchResult) : Prop := b.relevanceScore ≤ a.relevanceScore

theorem getElem?_set_self {α : Type u} (l : List α) (k : Nat) {y : α}
    (h : l[k]? = some y) : l.set k y = l := by
  induction l generalizing k with
  | nil => simp at h
  | cons a t ih =>
    cases k with
    | zero =>
      simp at h
      simp [List.set, h]
    | succ k =>
      simp at h
      simp [List.set, ih k h]

theorem set_perm_cons {α : Type u} (l : List α) (k : Nat) (x : α) {y : α}
    (h : l[k]? = some y) : (l.set k x).Perm (x :: l.eraseIdx k) := by
  induction l generalizing k with
  | nil => simp at h
  | cons a t ih =>
    cases k with
    | zero => simp [List.set, List.eraseIdx]
    | succ k =>
      simp only [List.getElem?_cons_succ] at h
      simp only [List.set, List.eraseIdx]
      exact ((List.perm_cons a).2 (ih k h)).trans (List.Perm.swap x a _)

theorem perm_cons_eraseIdx {α : Type u} (l : List α) (k : Nat) {y : α}
    (h : l[k]? = some y) : l.Perm (y :: l.eraseIdx k) := by
  have := set_perm_cons l k y h
  rwa [getElem?_set_self l k h] at this

theorem swap_head {α : Type u} (t : List α) (a : α) (k : Nat) {x : α}
    (h : t[k]? = some x) : (x :: t.set k a).Perm (a :: t) := by
  have h1 : (x :: t.set k a).Perm (x :: (a :: t.eraseIdx k)) :=
    (List.perm_cons x).2 (set_perm_cons t k a h)
  have h2 : (x :: (a :: t.eraseIdx k)).Perm (a :: (x :: t.eraseIdx k)) := List.Perm.swap a x _
  have h3 : (a :: (x :: t.eraseIdx k)).Perm (a :: t) :=
    (List.perm_cons a).2 (perm_cons_eraseIdx t k h).symm
  exact (h1.trans h2).trans h3

theorem listSwap_perm {α : Type u} : ∀ (l : List α) (i j : Nat), (listSwap l i j).Perm l := by
  intro l
  induction l with
  | nil => intro i j; simp [listSwap]
  | cons a t ih =>
    intro i j
    cases i with
    | zero =>
      cases j with
      | zero => simp [listSwap]
      | succ k =>
        cases h : t[k]? with
        | none => simp [listSwap, h]
        | some y =>
          simpa [listSwap, h, List.set] using swap_head t a k h
    | succ i2 =>
      cases j with
      | zero =>
        cases h : t[i2]? with
        | none => simp [listSwap, h]
        | some x =>
          simpa [listSwap, h, List.set] using swap_head t a i2 h
      | succ j2 =>
        cases h1 : t[i2]? with
        | none => simp [listSwap, h1]
        | some x =>
          cases h2 : t[j2]? with
          | none => simp [listSwap, h1, h2]
          | some y =>
            have := ih i2 j2
            simp only [listSwap, h1, h2] at this
            simpa [listSwap, h1, h2, List.set] using (List.perm_cons a).2 this

theorem shuffleAux_perm {α : Type u} : ∀ (n : Nat) (l : List α) (rng : Nat),
    (shuffleAux l rng n).Perm l := by
  intro n
  induction n with
  | zero => intro l rng; simp [shuffleAux]
  | succ c ih =>
    intro l rng
    exact (ih _ _).trans (listSwap_perm l (c + 1) _)

theorem shuffleArray_perm {α : Type u} (l : List α) (seed : Nat) :
    (shuffleArray l seed).Perm l :=
  shuffleAux_perm _ l seed

theorem mem_withIndexesFrom {x : IndexedTrace} :
    ∀ (l : List String) (k : Nat), x ∈ withIndexesFrom k l →
      ∃ i, l[i]? = some x.trace ∧ x.originalIndex = k + i + 1 := by
  intro l
  induction l with
  | nil => intro k h; simp [withIndexesFrom] at h
  | cons t rest ih =>
    intro k h
    simp only [withIndexesFrom, List.mem_cons] at h
    rcases h with h | h
    · exact ⟨0, by simp [h], by simp [h]⟩
    · obtain ⟨i, hg, ho⟩ := ih (k + 1) h
      exact ⟨i + 1, by simpa using hg, by omega⟩

theorem map_originalIndex_withIndexesFrom :
    ∀ (l : List String) (k : Nat),
      (withIndexesFrom k l).map (fun t => t.originalIndex) = List.range' (k + 1) l.length := by
  intro l
  induction l with
  | nil => intro k; simp [withIndexesFrom]
  | cons t rest ih =>
    intro k
    simp only [withIndexesFrom, List.map_cons, List.length_cons, List.range'_succ, ih (k + 1)]

theorem withIndexesFrom_eq_zip :
    ∀ (l : List String) (k : Nat),
      withIndexesFrom k l =
        (l.zip (List.range' (k + 1) l.length)).map (fun p => ⟨p.1, p.2⟩) := by
  intro l
  induction l with
  | nil => intro k; simp [withIndexesFrom]
  | cons t rest ih =>
    intro k
    simp only [withIndexesFrom, List.length_cons, List.range'_succ, List.zip_cons_cons,
      List.map_cons, ih (k + 1)]

theorem length_foldl_append :
    ∀ (l : List String) (init : String),
      (l.foldl (fun r s => r ++ s) init).length = init.length + (l.map String.length).sum := by
  intro l
  induction l with
  | nil => intro init; simp
  | cons a t ih =>
    intro init
    simp only [List.foldl_cons, List.map_cons, List.sum_cons, ih (init ++ a),
      String.length_append]
    omega

theorem length_join_strings (l : List String) :
    (String.join l).length = (l.map String.length).sum := by
  have := length_foldl_append l ""
  simpa [String.join] using this

theorem shuffleAux_succ {α : Type u} (l : List α) (rng c : Nat) :
    shuffleAux l rng (c + 1) =
      shuffleAux (listSwap l (c + 1) (lcgNext rng * (c + 2) / 233280)) (lcgNext rng) c := by
  simp only [shuffleAux]

theorem foldl_refShuffleStep :
    ∀ (k : Nat) (l : List IndexedTrace) (st : Nat),
      (List.range' 1 k).reverse.foldl refShuffleStep (l, st) =
        (shuffleAux l st k, lcgNext^[k] st) := by
  intro k
  induction k with
  | zero => intro l st; rfl
  | succ k ih =>
    intro l st
    rw [List.range'_1_concat, List.reverse_append]
    rw [List.reverse_singleton, List.singleton_append, List.foldl_cons]
    have hstep : refShuffleStep (l, st) (1 + k) =
        (listSwap l (1 + k) (lcgNext st * (1 + k + 1) / 233280), lcgNext st) := rfl
    have h1 : 1 + k = k + 1 := Nat.add_comm 1 k
    rw [hstep, h1, ih, shuffleAux_succ, Function.iterate_succ_apply]

theorem refShuffle_eq_shuffleArray (l : List IndexedTrace) (seed : Nat) :
    refShuffle l seed = shuffleArray l seed := by
  unfold refShuffle shuffleArray
  rw [foldl_refShuffleStep]

theorem replaceFirst_of_not_occurs :
    ∀ (s pat repl : List Char), occursIn pat s = false → replaceFirst pat repl s = s := by
  intro s
  induction s with
  | nil =>
    intro pat repl h
    simp only [occursIn] at h
    simp [replaceFirst, h]
  | cons c rest ih =>
    intro pat repl h
    simp only [occursIn, Bool.or_eq_false_iff] at h
    simp [replaceFirst, h.1, ih pat repl h.2]

theorem replaceFirst_of_occurs :
    ∀ (s pat repl : List Char), occursIn pat s = true →
      ∃ u v, s = u ++ pat ++ v ∧ replaceFirst pat repl s = u ++ repl ++ v ∧
        ∀ u2 v2 : List Char, s = u2 ++ pat ++ v2 → u.length ≤ u2.length := by
  intro s
  induction s with
  | nil =>
    intro pat repl h
    simp only [occursIn, List.isEmpty_iff] at h
    refine ⟨[], [], by simp [h], by simp [replaceFirst, h], fun u2 v2 _ => by simp⟩
  | cons c rest ih =>
    intro pat repl h
    by_cases hp : pat.isPrefixOf (c :: rest) = true
    · obtain ⟨v, hv⟩ := List.isPrefixOf_iff_prefix.mp hp
      refine ⟨[], v, by simp [hv.symm], ?_, fun u2 v2 _ => by simp⟩
      simp only [replaceFirst, hp, if_true, List.nil_append]
      rw [← hv, List.drop_left]
    · have h2 : occursIn pat rest = true := by
        simp only [occursIn, Bool.or_eq_true] at h
        rcases h with h | h
        · exact absurd h hp
        · exact h
      obtain ⟨u, v, hs, hr, hmin⟩ := ih pat repl h2
      refine ⟨c :: u, v, by simp [hs], ?_, ?_⟩
      · simp only [replaceFirst, hp, if_false, List.cons_append]
        rw [hr]
        simp
      · intro u2 v2 hdec
        cases u2 with
        | nil =>
          exfalso
          apply hp
          apply List.isPrefixOf_iff_prefix.mpr
          exact ⟨v2, by simpa using hdec.symm⟩
        | cons d u3 =>
          have htail : rest = u3 ++ pat ++ v2 := by
            simpa using congrArg List.tail hdec
          have := hmin u3 v2 htail
          simp only [List.length_cons]
          omega

theorem find?_originalIndex {tracesForReasoning : List IndexedTrace} {txt : String} {n : Nat}
    (hnd : (tracesForReasoning.map (fun t => t.originalIndex)).Nodup)
    (hmem : (⟨txt, n⟩ : IndexedTrace) ∈ tracesForReasoning) :
    tracesForReasoning.find? (fun t => t.originalIndex == n) = some ⟨txt, n⟩ := by
  induction tracesForReasoning with
  | nil => simp at hmem
  | cons h t ih =>
    simp only [List.map_cons, List.nodup_cons] at hnd
    rcases List.mem_cons.mp hmem with he | hm
    · rw [← he]
      simp [List.find?]
    · have hne : h.originalIndex ≠ n := by
        intro heq
        exact hnd.1 (by rw [heq]; exact List.mem_map.mpr ⟨⟨txt, n⟩, hm, rfl⟩)
      rw [List.find?_cons_of_neg _ (by simpa using hne)]
      exact ih hnd.2 hm

theorem mem_insertDesc {x a : BatchResult} :
    ∀ {l : List BatchResult}, x ∈ insertDesc a l ↔ x = a ∨ x ∈ l := by
  intro l
  induction l with
  | nil => simp [insertDesc]
  | cons y ys ih =>
    by_cases hc : a.relevanceScore ≤ y.relevanceScore
    · simp only [insertDesc, if_pos hc, List.mem_cons, ih]
      tauto
    · simp only [insertDesc, if_neg hc, List.mem_cons]

theorem mem_sortByScoreDesc {x : BatchResult} :
    ∀ {l : List BatchResult}, x ∈ sortByScoreDesc l ↔ x ∈ l := by
  intro l
  induction l with
  | nil => simp [sortByScoreDesc]
  | cons y ys ih =>
    simp only [sortByScoreDesc, mem_insertDesc, List.mem_cons, ih]

theorem pairwise_insertDesc {x : BatchResult} :
    ∀ {l : List BatchResult}, l.Pairwise scoreGE → (insertDesc x l).Pairwise scoreGE := by
  intro l
  induction l with
  | nil => intro _; simp [insertDesc, List.pairwise_cons]
  | cons y ys ih =>
    intro h
    rcases List.pairwise_cons.mp h with ⟨hy, hys⟩
    by_cases hc : x.relevanceScore ≤ y.relevanceScore
    · simp only [insertDesc, if_pos hc]
      refine List.pairwise_cons.mpr ⟨?_, ih hys⟩
      intro z hz
      rcases mem_insertDesc.mp hz with rfl | hz2
      · exact hc
      · exact hy z hz2
    · simp only [insertDesc, if_neg hc]
      refine List.pairwise_cons.mpr ⟨?_, h⟩
      intro z hz
      rcases List.mem_cons.mp hz with rfl | hz2
      · exact le_of_not_le hc
      · exact le_trans (hy z hz2) (le_of_not_le hc)

theorem pairwise_sortByScoreDesc :
    ∀ (l : List BatchResult), (sortByScoreDesc l).Pairwise scoreGE := by
  intro l
  induction l with
  | nil => simp [sortByScoreDesc]
  | cons y ys ih => exact pairwise_insertDesc ih

/-- C1: for every non-empty list of trace texts and every maxCount, the sampler's
output equals the reference algorithm — pair each trace with its 1-based input
position, seed the LCG with the sum of the character lengths of all trace texts
mod 100000, run the backward Fisher-Yates shuffle with
`state = (state * 9301 + 49297) mod 233280` and draw `state / 233280`, and take
the first `min(maxCount, len(traces))` elements of the shuffled sequence.  Being
a Lean function of `traces` and `maxCount` alone, the sampler is in particular a
pure, deterministic function of its inputs. -/
theorem C1_sampler_matches_reference (traces : List String) (maxCount : Nat)
    (_hne : traces ≠ []) :
    selectedTraces traces maxCount = referenceSample traces maxCount := by
  simp only [selectedTraces, referenceSample]
  rw [refShuffle_eq_shuffleArray]
  have hseed : contentSeed traces = (traces.map String.length).sum % 100000 := by
    simp only [contentSeed, length_join_strings]
  have hpair : tracesWithIndexes traces =
      (traces.zip (List.range' 1 traces.length)).map (fun p => ⟨p.1, p.2⟩) := by
    have := withIndexesFrom_eq_zip traces 0
    simpa [tracesWithIndexes] using this
  rw [← hpair, ← hseed]

/-- C1 witness: the refinement theorem applied at a concrete corpus. -/
theorem C1_sampler_matches_reference_witness :
    (["ab", "c", "ddd"] : List String) ≠ [] ∧
      selectedTraces ["ab", "c", "ddd"] 2 = referenceSample ["ab", "c", "ddd"] 2 :=
  ⟨by decide, C1_sampler_matches_reference ["ab", "c", "ddd"] 2 (by decide)⟩

/-- C2: the claim states that once the per-request cancellation flag has been set
by a client disconnect no further events are written, and that client-initiated
cancellation never produces an error event.  The code violates both parts: at
the failing input below the client disconnects right after the heartbeat (zero
content fragments emitted, flag set), yet the handler still writes the
`streaming_complete`, `reasoning_start` and `complete` events unconditionally;
and when the abort of the in-flight analysis call makes
`analyzeDatasetGapsStreaming` reject, the catch branch writes an error event.
This theorem evaluates the embedded handler at both failing inputs. -/
theorem C2_endpoint_writes_after_disconnect :
    endpointEvents ["hello", "world"] (some 0) false [] =
        [Event.heartbeat, Event.streamingComplete, Event.reasoningStart,
          Event.complete []] ∧
      endpointEvents ["hello", "world"] (some 0) true [] =
        [Event.heartbeat, Event.errorEv "Analysis failed"] :=
  ⟨rfl, rfl⟩

/-- C3 counterexample: a model item referencing line 99, absent from the sample
`[("a",1),("b",2)]`, is not dropped from the output — the Reasoning Caller keeps
an entry with empty trace text, so the output is not empty as the claim's
"dropped silently" predicts. -/
theorem C3_counterexample_absent_line_kept :
    processReasoningResponse [⟨"a", 1⟩, ⟨"b", 2⟩]
        (.parsed (some [⟨99, some ["t"]⟩])) = [⟨"", ["t"]⟩] ∧
      processReasoningResponse [⟨"a", 1⟩, ⟨"b", 2⟩]
        (.parsed (some [⟨99, some ["t"]⟩])) ≠ [] := by
  constructor
  · rfl
  · decide

/-- C3 (amended): the Reasoning Caller maps each item's line number against the
sample's `originalIndex` values, not array position — a line number present in
the sample (whose indexes are pairwise distinct) yields that trace's text in the
output, and a line number absent from the sample yields an output entry with
empty trace text, kept in the list without raising an error (every parsed item
produces exactly one output entry). -/
theorem C3_line_mapping (tfr : List IndexedTrace) (item : SelectedItem) (txt : String)
    (items : List SelectedItem) :
    ((tfr.map (fun t => t.originalIndex)).Nodup →
      (⟨txt, item.line_number⟩ : IndexedTrace) ∈ tfr →
      mapSelectedItem tfr item = ⟨txt, item.tags.getD []⟩) ∧
    (item.line_number ∉ tfr.map (fun t => t.originalIndex) →
      mapSelectedItem tfr item = ⟨"", item.tags.getD []⟩) ∧
    (items ≠ [] →
      (processReasoningResponse tfr (.parsed (some items))).length = items.length) := by
  refine ⟨?_, ?_, ?_⟩
  · intro hnd hmem
    simp only [mapSelectedItem]
    rw [find?_originalIndex hnd hmem]
  · intro habs
    have hfn : tfr.find? (fun t => t.originalIndex == item.line_number) = none := by
      rw [List.find?_eq_none]
      intro x hx hbe
      exact habs (List.mem_map.mpr ⟨x, hx, by simpa using hbe⟩)
    simp only [mapSelectedItem]
    rw [hfn]
  · intro hne
    have hpos : items.length > 0 := List.length_pos.mpr hne
    simp only [processReasoningResponse, if_pos hpos, List.length_map]

/-- C3 witness: the amended mapping theorem applied at the sample of the claim's
example, with a reference to line 2 yielding trace text `"b"`. -/
theorem C3_line_mapping_witness :
    ((([⟨"a", 1⟩, ⟨"b", 2⟩] : List IndexedTrace).map (fun t => t.originalIndex)).Nodup ∧
        (⟨"b", 2⟩ : IndexedTrace) ∈ ([⟨"a", 1⟩, ⟨"b", 2⟩] : List IndexedTrace)) ∧
      mapSelectedItem [⟨"a", 1⟩, ⟨"b", 2⟩] ⟨2, some ["t"]⟩ = ⟨"b", ["t"]⟩ :=
  ⟨⟨by decide, by decide⟩,
    (C3_line_mapping [⟨"a", 1⟩, ⟨"b", 2⟩] ⟨2, some ["t"]⟩ "b" []).1 (by decide) (by decide)⟩

/-- C4 counterexample: on the template consisting of the same placeholder twice,
the Prompt Assembler substitutes only the first occurrence, not each occurrence
as the claim states. -/
theorem C4_counterexample_second_occurrence :
    renderPrompt (placeholderOf ['a'] ++ [' '] ++ placeholderOf ['a']) [(['a'], ['X'])] ≠
        renderPromptAllOccurrences (placeholderOf ['a'] ++ [' '] ++ placeholderOf ['a'])
          [(['a'], ['X'])] ∧
      renderPrompt (placeholderOf ['a'] ++ [' '] ++ placeholderOf ['a']) [(['a'], ['X'])] =
        ['X', ' '] ++ placeholderOf ['a'] ∧
      renderPromptAllOccurrences (placeholderOf ['a'] ++ [' '] ++ placeholderOf ['a'])
        [(['a'], ['X'])] = ['X', ' ', 'X'] :=
  ⟨by decide, by decide, by decide⟩

/-- C4 (amended): for every template and binding list, the Prompt Assembler
substitutes, for each binding in turn, only the first occurrence of its `{name}`
placeholder in the current string (literal substring substitution at the
earliest match position); a placeholder that does not occur — in particular any
unresolved placeholder and any later occurrence — is left verbatim without
raising an error. -/
theorem C4_first_occurrence_only (template : List Char) (b : List Char × List Char)
    (rest : List (List Char × List Char)) (pat repl s : List Char) :
    renderPrompt template (b :: rest) =
        renderPrompt (replaceFirst (placeholderOf b.1) b.2 template) rest ∧
      (occursIn pat s = false → replaceFirst pat repl s = s) ∧
      (occursIn pat s = true →
        ∃ u v, s = u ++ pat ++ v ∧ replaceFirst pat repl s = u ++ repl ++ v ∧
          ∀ u2 v2 : List Char, s = u2 ++ pat ++ v2 → u.length ≤ u2.length) :=
  ⟨rfl, replaceFirst_of_not_occurs s pat repl, replaceFirst_of_occurs s pat repl⟩

/-- C4 witness: the amended theorem applied at a concrete pattern absent from a
concrete string, which is left verbatim. -/
theorem C4_first_occurrence_only_witness :
    occursIn ['z'] ['q'] = false ∧ replaceFirst ['z'] ['X'] ['q'] = ['q'] :=
  ⟨by decide,
    (C4_first_occurrence_only [] ([], []) [] ['z'] ['X'] ['q']).2.1 (by decide)⟩

/-- C5: every element of the produced sample has an `originalIndex` in
`[1, len(corpus)]` and its trace text equals the corpus entry at that 1-based
position, independent of shuffle order. -/
theorem C5_index_fidelity (traces : List String) (maxCount : Nat) :
    ∀ t ∈ selectedTraces traces maxCount,
      1 ≤ t.originalIndex ∧ t.originalIndex ≤ traces.length ∧
        traces[t.originalIndex - 1]? = some t.trace := by
  intro t ht
  have h1 : t ∈ shuffleArray (tracesWithIndexes traces) (contentSeed traces) :=
    List.mem_of_mem_take ht
  have h2 : t ∈ tracesWithIndexes traces := (shuffleArray_perm _ _).mem_iff.mp h1
  obtain ⟨i, hg, ho⟩ := mem_withIndexesFrom traces 0 h2
  obtain ⟨hlt, _⟩ := List.getElem?_eq_some.mp hg
  refine ⟨by omega, by omega, ?_⟩
  have hi : t.originalIndex - 1 = i := by omega
  rw [hi]
  exact hg

/-- C5 witness: the index-fidelity theorem applied at a concrete corpus and a
concrete member of its sample. -/
theorem C5_index_fidelity_witness :
    (⟨"b", 2⟩ : IndexedTrace) ∈ selectedTraces ["a", "b"] 2 ∧
      (1 ≤ 2 ∧ 2 ≤ (["a", "b"] : List String).length ∧
        (["a", "b"] : List String)[2 - 1]? = some "b") :=
  ⟨by decide, C5_index_fidelity ["a", "b"] 2 ⟨"b", 2⟩ (by decide)⟩

/-- C6: when the Reasoning Caller is invoked without a pre-existing non-empty
sample, its fallback sampling path operates on at most the first 250 entries of
the corpus before shuffling: the prepared traces are a function of the first 250
corpus lines only, and in general the fallback sample of any trace list equals
the fallback sample of its first 250 entries — so for a corpus of 500 traces
only the first 250 are considered. -/
theorem C6_fallback_cap (langsmithContent : String)
    (preSelectedTraces : Option (List IndexedTrace))
    (hpre : preSelectedTraces = none ∨ preSelectedTraces = some []) :
    tracesForReasoningPrep langsmithContent preSelectedTraces =
        fallbackTracesForReasoning ((splitTraces langsmithContent).take 250) ∧
      ∀ l : List String, fallbackTracesForReasoning l = fallbackTracesForReasoning (l.take 250) := by
  have hcap : ∀ l : List String,
      fallbackTracesForReasoning l = fallbackTracesForReasoning (l.take 250) := by
    intro l
    simp only [fallbackTracesForReasoning, List.take_take, min_self]
  refine ⟨?_, hcap⟩
  rcases hpre with rfl | rfl
  · simp only [tracesForReasoningPrep]
    exact hcap _
  · simp only [tracesForReasoningPrep, List.length_nil, gt_iff_lt, lt_self_iff_false, if_false]
    exact hcap _

/-- C6 witness: the fallback-cap theorem applied with no pre-existing sample. -/
theorem C6_fallback_cap_witness :
    ((none : Option (List IndexedTrace)) = none ∨
        (none : Option (List IndexedTrace)) = some []) ∧
      tracesForReasoningPrep "a" none =
        fallbackTracesForReasoning ((splitTraces "a").take 250) :=
  ⟨Or.inl rfl, (C6_fallback_cap "a" none (Or.inl rfl)).1⟩

/-- C7: every failure of the Reasoning Caller — the pre-call abort check, a
model-call failure landing in the outer catch, a response without a function
call, a `JSON.parse` failure, and a parsed payload without the expected field —
results in an empty tagged-trace list being returned.  The embedding is a total
function: every branch returns a list, so no exception ever propagates and
reasoning failures are non-fatal to the turn. -/
theorem C7_failures_yield_empty (tracesForReasoning : List IndexedTrace) :
    processReasoningResponse tracesForReasoning .abortedBeforeCall = [] ∧
      processReasoningResponse tracesForReasoning .callFailure = [] ∧
      processReasoningResponse tracesForReasoning .noFunctionCall = [] ∧
      processReasoningResponse tracesForReasoning .parseFailure = [] ∧
      processReasoningResponse tracesForReasoning (.parsed none) = [] :=
  ⟨rfl, rfl, rfl, rfl, rfl⟩

/-- C8: before rendering the reasoning prompt — and only the reasoning prompt,
not the analysis prompt — the conversation context is truncated to its last 2000
characters (the result is a suffix of the context of length `min(len, 2000)`,
and the context itself when it does not exceed 2000), and each trace text longer
than 200 characters is truncated to its first 200 characters followed by an
ellipsis marker; the reasoning builder substitutes the truncated values while
the analysis builder substitutes the conversation verbatim. -/
theorem C8_reasoning_truncation (conv t template ts ds : List Char)
    (tfr : List IndexedTrace) :
    (truncateConversation conv).length = min conv.length 2000 ∧
      truncateConversation conv <:+ conv ∧
      (conv.length ≤ 2000 → truncateConversation conv = conv) ∧
      (t.length ≤ 200 → truncateTrace t = t) ∧
      (t.length > 200 → truncateTrace t = t.take 200 ++ "...".data) ∧
      buildReasoningPrompt template conv tfr =
        renderPrompt template
          [("conversation".data, truncateConversation conv),
            ("traces".data, optimizedTraces tfr)] ∧
      buildAnalysisPrompt template conv ts ds =
        renderPrompt template
          [("conversation".data, conv), ("traces".data, ts), ("datasets".data, ds)] := by
  refine ⟨?_, ?_, ?_, ?_, ?_, rfl, rfl⟩
  · simp only [truncateConversation]
    by_cases h : conv.length > 2000
    · rw [if_pos h, List.length_drop]
      omega
    · rw [if_neg h]
      omega
  · simp only [truncateConversation]
    by_cases h : conv.length > 2000
    · rw [if_pos h]
      exact List.drop_suffix _ _
    · rw [if_neg h]
  · intro h
    simp only [truncateConversation]
    rw [if_neg (by omega)]
  · intro h
    simp only [truncateTrace]
    rw [if_neg (by omega)]
  · intro h
    simp only [truncateTrace]
    rw [if_pos h]

/-- C8 witness: the truncation theorem applied at short inputs that are left
unchanged. -/
theorem C8_reasoning_truncation_witness :
    ("hi".data.length ≤ 2000 ∧ truncateConversation "hi".data = "hi".data) ∧
      ("abc".data.length ≤ 200 ∧ truncateTrace "abc".data = "abc".data) :=
  ⟨⟨by decide, (C8_reasoning_truncation "hi".data "abc".data [] [] [] []).2.2.1 (by decide)⟩,
    ⟨by decide, (C8_reasoning_truncation "hi".data "abc".data [] [] [] []).2.2.2.1 (by decide)⟩⟩

/-- C9: every result of the Batch Ranking Caller comes from a returned line
number inside `[1, len(allTraces)]` (its zero-based `originalIndex` lies in
`[0, len)`; out-of-range line numbers are filtered out before mapping), every
`relevanceScore` lies in `[0, 1]`, and the result list is sorted descending by
`relevanceScore`. -/
theorem C9_batch_bounds (traces : List String) (matchingTraces : Option (List BatchItem)) :
    (∀ r ∈ processBatchResponse traces matchingTraces,
      0 ≤ r.relevanceScore ∧ r.relevanceScore ≤ 1 ∧
        0 ≤ r.originalIndex ∧ r.originalIndex < (traces.length : Int)) ∧
      (processBatchResponse traces matchingTraces).Pairwise scoreGE := by
  constructor
  · intro r hr
    cases matchingTraces with
    | none => simp [processBatchResponse] at hr
    | some items =>
      simp only [processBatchResponse] at hr
      obtain ⟨it, hit, rfl⟩ := List.mem_map.mp (mem_sortByScoreDesc.mp hr)
      have hin := (List.mem_filter.mp hit).2
      simp only [batchItemInRange] at hin
      cases hn : it.line_number with
      | none => rw [hn] at hin; simp at hin
      | some n =>
        rw [hn] at hin
        simp only [Bool.and_eq_true, decide_eq_true_eq] at hin
        obtain ⟨hn1, hn2⟩ := hin
        simp only [mkBatchResult, hn, Option.getD_some]
        refine ⟨?_, ?_, by omega, by omega⟩
        · simp only [clamp01, jsMin, jsMax]
          split_ifs <;> linarith
        · simp only [clamp01, jsMin, jsMax]
          split_ifs <;> linarith
  · cases matchingTraces with
    | none => simp [processBatchResponse]
    | some items => exact pairwise_sortByScoreDesc _

/-- C9 witness: the bounds theorem applied at a concrete trace list and a
concrete parsed item. -/
theorem C9_batch_bounds_witness :
    (⟨"x", 0, 1, "r"⟩ : BatchResult) ∈
        processBatchResponse ["x"] (some [⟨some 1, some 1, some "r"⟩]) ∧
      (0 ≤ (1 : ℚ) ∧ (1 : ℚ) ≤ 1 ∧ 0 ≤ (0 : Int) ∧
        (0 : Int) < ((["x"] : List String).length : Int)) :=
  ⟨by decide,
    (C9_batch_bounds ["x"] (some [⟨some 1, some 1, some "r"⟩])).1 ⟨"x", 0, 1, "r"⟩ (by decide)⟩

/-- C10: the sample produced by the sampler contains pairwise-distinct
`originalIndex` values — no corpus line ever appears twice in a sample — so the
Reasoning Caller's lookup of a line number by `originalIndex` is unambiguous. -/
theorem C10_sample_indexes_nodup (traces : List String) (maxCount : Nat) :
    ((selectedTraces traces maxCount).map (fun t => t.originalIndex)).Nodup := by
  have hperm :=
    (shuffleArray_perm (tracesWithIndexes traces) (contentSeed traces)).map
      (fun t => t.originalIndex)
  have hnd : ((tracesWithIndexes traces).map (fun t => t.originalIndex)).Nodup := by
    rw [tracesWithIndexes, map_originalIndex_withIndexesFrom]
    exact List.nodup_range' _ _
  have hnd2 :
      ((shuffleArray (tracesWithIndexes traces) (contentSeed traces)).map
        (fun t => t.originalIndex)).Nodup := hperm.nodup_iff.mpr hnd
  rw [selectedTraces, List.map_take]
  exact List.Nodup.sublist (List.take_sublist _ _) hnd2

end TraceAnalyst
